import Mathlib

/-!
Shallow embedding of `src/vs/workbench/api/node/extHostWorkspace.ts`
(`Workspace2` and `ExtHostWorkspace`) together with the collaborator
functions the file imports from elsewhere in the repository
(`vs/base/common/strings.compare`, `vs/base/common/arrays.delta`,
`vs/base/common/paths.normalize`, `path.relative`, `path.basename`,
`vs/platform/workspace/common/workspace.Workspace`,
`vs/workbench/api/node/extHostTypeConverters`).  Those collaborators are
not under `src/`, so they are modelled from the specification, each one
marked in its doc comment.
-/

namespace VSW

/-- A URI value as used by the source: `toStr` is the canonical URI
string (the result of `uri.toString()`), `fsPath` the filesystem-path
representation (`uri.fsPath`). -/
structure Uri where
  toStr : String
  fsPath : String
deriving DecidableEq, Repr

/-- The `IWorkspaceData` payload of `$acceptWorkspaceData`. -/
structure IWorkspaceData where
  id : String
  name : String
  roots : List Uri
deriving DecidableEq, Repr

/-- A `vscode.WorkspaceFolder` as constructed by `Workspace2`:
`{ name: basename(uri.fsPath), uri, index }`. -/
structure WorkspaceFolder where
  name : String
  uri : Uri
  index : Nat
deriving DecidableEq, Repr

/-- Lexicographic strict order on character lists, written as an
executable Boolean so that concrete instances reduce in the kernel. -/
def lexLtB : List Char → List Char → Bool
  | _, [] => false
  | [], _ :: _ => true
  | c :: cs, d :: ds => if c < d then true else if d < c then false else lexLtB cs ds

/-- Strict lexicographic order on strings (the JavaScript `<` on
strings, restricted to the character level). -/
def strLt (a b : String) : Prop :=
  lexLtB a.data b.data = true

instance : DecidableRel strLt := fun a b =>
  inferInstanceAs (Decidable (lexLtB a.data b.data = true))

/-- Nonstrict lexicographic order on strings. -/
def strLe (a b : String) : Prop :=
  lexLtB b.data a.data = false

instance : DecidableRel strLe := fun a b =>
  inferInstanceAs (Decidable (lexLtB b.data a.data = false))

/-- Splits a character list at a separator; `acc` holds the characters
of the current segment in reverse. -/
def splitChars (sep : Char) : List Char → List Char → List (List Char)
  | [], acc => [acc.reverse]
  | c :: cs, acc =>
    if c = sep then acc.reverse :: splitChars sep cs []
    else splitChars sep cs (c :: acc)

/-- The nonempty `/`-separated segments of a path. -/
def segmentsOf (p : String) : List String :=
  ((splitChars '/' p.data []).map String.mk).filter fun s => s ≠ ""

/-- Whether a path is absolute, i.e. begins with a separator. -/
def isAbsolute (p : String) : Bool :=
  match p.data with
  | '/' :: _ => true
  | _ => false

/-- The `result.indexOf(..) === 0` test of `getRelativePath`: whether
the string begins with two dots. -/
def startsWithDotDot (s : String) : Bool :=
  match s.data with
  | c :: d :: _ => c = '.' ∧ d = '.'
  | _ => false

/-- Modelled from the spec: `basename` (the `path` module collaborator,
§4.1 "name: basename(root.path)"), not under `src/`.  Returns the last
nonempty `/`-separated segment of the path, or the path itself if there
is none. -/
def basename (p : String) : String :=
  match (segmentsOf p).getLast? with
  | some s => s
  | none => p

/-- Modelled from the spec: `compare` from `vs/base/common/strings`
(not under `src/`): `a < b → -1`, `a > b → 1`, otherwise `0`, using
lexicographic string order.  Encoded with `Ordering`. -/
def strCompare (a b : String) : Ordering :=
  if strLt a b then .lt else if strLt b a then .gt else .eq

/-- The snapshot class `Workspace2`.  The nested `Workspace` object
(from `vs/platform/workspace/common/workspace`, not under `src/`) is
modelled from the spec §4.1: it stores `id`, `name` and the root list
verbatim, order preserved; those fields are inlined here. -/
structure Workspace2 where
  id : String
  name : String
  roots : List Uri
  folders : List WorkspaceFolder
deriving DecidableEq, Repr

/-- The private constructor of `Workspace2`: derives
`folders = roots.map((uri, index) => ({ name: basename(uri.fsPath), uri, index }))`. -/
def Workspace2.ofData (data : IWorkspaceData) : Workspace2 where
  id := data.id
  name := data.name
  roots := data.roots
  folders := data.roots.enum.map fun p => ⟨basename p.2.fsPath, p.2, p.1⟩

/-- The factory `Workspace2.fromData`: `data ? new Workspace2(data) : null`. -/
def Workspace2.fromData (data : Option IWorkspaceData) : Option Workspace2 :=
  data.map Workspace2.ofData

/-- Modelled from the spec: `Workspace.getRoot` (from
`vs/platform/workspace/common/workspace`, not under `src/`), per §4.1 it
yields a root matching the argument by canonical URI string, or nothing. -/
def Workspace.getRoot (roots : List Uri) (uri : Uri) : Option Uri :=
  roots.find? fun r => r.toStr == uri.toStr

/-- The method `Workspace2.getRoot`: looks the URI up in the nested workspace and,
when found, returns the folder whose canonical URI string equals the
argument, otherwise `undefined`. -/
def Workspace2.getRoot (w : Workspace2) (uri : Uri) : Option WorkspaceFolder :=
  match Workspace.getRoot w.roots uri with
  | some _ => w.folders.find? fun f => f.uri.toStr == uri.toStr
  | none => none

/-- The comparator `ExtHostWorkspace._compareWorkspaceFolder`:
`compare(a.uri.toString(), b.uri.toString())`. -/
def compareWorkspaceFolder (a b : WorkspaceFolder) : Ordering :=
  strCompare a.uri.toStr b.uri.toStr

/-- The ordering relation used to model `Array.prototype.sort` with the
comparator `_compareWorkspaceFolder`: nonstrict order on the canonical
URI strings. -/
def folderLE (a b : WorkspaceFolder) : Prop :=
  strLe a.uri.toStr b.uri.toStr

instance : DecidableRel folderLE := fun a b =>
  inferInstanceAs (Decidable (strLe a.uri.toStr b.uri.toStr))

/-- The call `folders.sort(ExtHostWorkspace._compareWorkspaceFolder)`: sorting by
canonical URI string ascending.  JavaScript leaves the sort algorithm
unspecified; any comparison sort agrees on lists whose keys are
pairwise distinct, so the model fixes insertion sort. -/
def sortFolders (l : List WorkspaceFolder) : List WorkspaceFolder :=
  l.insertionSort folderLE

/-- The payload fired on `_onDidChangeWorkspace`
(`vscode.WorkspaceFoldersChangeEvent`). -/
structure ChangeEvent where
  added : List WorkspaceFolder
  removed : List WorkspaceFolder
deriving DecidableEq, Repr

/-- Inner loop of `deltaMerge`, walking the second list while the head
`b` of the first list compares greater; `f` is the continuation that
resumes the merge on the tail `bs` of the first list. -/
def deltaMergeGo (cmp : WorkspaceFolder → WorkspaceFolder → Ordering)
    (b : WorkspaceFolder) (bs : List WorkspaceFolder)
    (f : List WorkspaceFolder → List WorkspaceFolder × List WorkspaceFolder) :
    List WorkspaceFolder → List WorkspaceFolder × List WorkspaceFolder
  | [] => (b :: bs, [])
  | a :: as =>
    match cmp b a with
    | .eq => f as
    | .lt =>
      let r := f (a :: as)
      (b :: r.1, r.2)
    | .gt =>
      let r := deltaMergeGo cmp b bs f as
      (r.1, a :: r.2)

/-- Modelled from the spec: `delta` from `vs/base/common/arrays` (not
under `src/`), per §4.2 a merge-style set difference over two sorted
sequences: entries only in the first list are removed, entries only in
the second are added, entries in both (by comparator) are ignored.
Returns `(removed, added)`; the merge is split into two structural
recursions, `deltaMerge_cons_cons` below restores the usual one-step
unfolding. -/
def deltaMerge (cmp : WorkspaceFolder → WorkspaceFolder → Ordering) :
    List WorkspaceFolder → List WorkspaceFolder → List WorkspaceFolder × List WorkspaceFolder
  | [], after => ([], after)
  | b :: bs, after => deltaMergeGo cmp b bs (deltaMerge cmp bs) after

/-- The handler `$acceptWorkspaceData`: captures the old folders sorted in place,
replaces the workspace wholesale, captures the new folders sorted in
place (`Array.prototype.sort` mutates, so the freshly stored snapshot
keeps the sorted array), computes the delta and fires exactly one
change event.  Returns the new stored workspace and that single event. -/
def acceptWorkspaceData (ws : Option Workspace2) (data : Option IWorkspaceData) :
    Option Workspace2 × ChangeEvent :=
  let oldRoots := match ws with
    | some w => sortFolders w.folders
    | none => []
  let built := Workspace2.fromData data
  match built with
  | some w =>
    let newRoots := sortFolders w.folders
    let d := deltaMerge compareWorkspaceFolder oldRoots newRoots
    (some { w with folders := newRoots }, ⟨d.2, d.1⟩)
  | none =>
    let d := deltaMerge compareWorkspaceFolder oldRoots []
    (none, ⟨d.2, d.1⟩)

/-- The query `getWorkspaceFolders`: `undefined` without a workspace, otherwise a
defensive copy (`slice(0)`) of the folder list; copying is the identity
in the pure model. -/
def getWorkspaceFolders (ws : Option Workspace2) : Option (List WorkspaceFolder) :=
  match ws with
  | none => none
  | some w => some w.folders

/-- The query `getEnclosingWorkspaceFolder`: `undefined` without a workspace,
otherwise delegates to `Workspace2.getRoot`. -/
def getEnclosingWorkspaceFolder (ws : Option Workspace2) (uri : Uri) : Option WorkspaceFolder :=
  match ws with
  | none => none
  | some w => w.getRoot uri

/-- The query `getPath`: `undefined` without a workspace or with zero roots,
otherwise the first root's `fsPath` (the commented-out multi-root guard
is inactive in the source). -/
def getPath (ws : Option Workspace2) : Option String :=
  match ws with
  | none => none
  | some w =>
    match w.roots with
    | [] => none
    | r :: _ => some r.fsPath

/-- One step of segment resolution for `normalize`: append the segment,
popping the previous one on a parent-directory segment where possible. -/
def normStep (absRoot : Bool) (acc : List String) (s : String) : List String :=
  if s = ".." then
    match acc.getLast? with
    | some t => if t = ".." then acc ++ [s] else acc.dropLast
    | none => if absRoot then [] else [s]
  else acc ++ [s]

/-- Modelled from the spec: `normalize` from `vs/base/common/paths` (not
under `src/`), the canonical-path-normalization collaborator of §6.
Collapses repeated separators and resolves single-dot and
parent-directory segments; the empty string is returned unchanged. -/
def normalize (p : String) : String :=
  if p = "" then "" else
  let absRoot := isAbsolute p
  let segs := (segmentsOf p).filter fun s => s ≠ "."
  let resolved := segs.foldl (normStep absRoot) []
  let body := String.intercalate "/" resolved
  if absRoot then "/" ++ body
  else if body = "" then "." else body

/-- Drops the longest common leading run of two segment lists. -/
def dropCommon : List String → List String → List String × List String
  | a :: as, b :: bs => if a = b then dropCommon as bs else (a :: as, b :: bs)
  | as, bs => (as, bs)

/-- Modelled from the spec: `relative` from the `path` module (the
relative-path-computation collaborator of §6), not under `src/`.  Splits
both paths into segments, drops the common leading run, and joins one
parent-directory segment per remaining source segment with the
remaining target segments. -/
def relative (src dst : String) : String :=
  let rest := dropCommon (segmentsOf src) (segmentsOf dst)
  String.intercalate "/" (List.replicate rest.1.length ".." ++ rest.2)

/-- The `pathOrUri` argument of `getRelativePath`:
a string, a `vscode.Uri`, or `undefined`. -/
inductive PathOrUri where
  | str (s : String)
  | uri (u : Uri)
  | undef
deriving DecidableEq, Repr

/-- The string extraction at the top of `getRelativePath`. -/
def pathOfInput : PathOrUri → Option String
  | .str s => some s
  | .uri u => some u.fsPath
  | .undef => none

/-- The `for (const { fsPath } of roots)` loop body of
`getRelativePath`: skip a root whose relative result is empty or starts
with two dots, otherwise return the normalized relative result. -/
def relLoop (p : String) : List Uri → Option String
  | [] => none
  | r :: rs =>
    let result := relative r.fsPath p
    if result = "" ∨ startsWithDotDot result then relLoop p rs
    else some (normalize result)

/-- The query `getRelativePath`, translated from the source: extract the path,
return a falsy path as is, return the normalized path without a
workspace or with an empty root list, otherwise run the root loop with
the normalized path as fallback. -/
def getRelativePath (ws : Option Workspace2) (x : PathOrUri) : Option String :=
  match pathOfInput x with
  | none => none
  | some p =>
    if p = "" then some p
    else
      match ws with
      | none => some (normalize p)
      | some w =>
        if w.roots.isEmpty then some (normalize p)
        else
          match relLoop p w.roots with
          | some res => some res
          | none => some (normalize p)

/-- Written from the spec sentence for `getRelativePath` (§4.5): with no
snapshot or zero roots the normalized input; otherwise the first root in
snapshot order whose relative path is nonempty and does not begin with
two dots gives that relative path normalized; otherwise the normalized
input. -/
def getRelativePathSpec (ws : Option Workspace2) (x : PathOrUri) : Option String :=
  match pathOfInput x with
  | none => none
  | some p =>
    if p = "" then some p
    else
      let roots := match ws with
        | none => []
        | some w => w.roots
      match roots.find? (fun r =>
          !(relative r.fsPath p = "" ∨ startsWithDotDot (relative r.fsPath p))) with
      | some r => some (normalize (relative r.fsPath p))
      | none => some (normalize p)

/-- A message sent to the `MainThreadWorkspaceShape` proxy. -/
inductive MainMsg where
  | startSearch (inc exc : String) (maxResults : Option Nat) (requestId : Nat)
  | cancelSearch (requestId : Nat)
  | saveAllMsg (includeUntitled : Option Bool)
deriving DecidableEq, Repr

/-- The observable effect of one `findFiles` call: the allocated request
id, the static pool after the post-increment, the `$startSearch` message
sent, and the `$cancelSearch` message the registered token callback will
send when fired (absent when no token was supplied). -/
structure FindResult where
  requestId : Nat
  newPool : Nat
  startMsg : MainMsg
  cancelMsg : Option MainMsg
deriving DecidableEq, Repr

/-- The operation `findFiles`: `requestId = _requestIdPool++`, then `$startSearch`
with that id; when a cancellation token is supplied, the registered
callback sends `$cancelSearch` with the same id. -/
def findFiles (pool : Nat) (inc exc : String) (maxResults : Option Nat) (hasToken : Bool) :
    FindResult where
  requestId := pool
  newPool := pool + 1
  startMsg := .startSearch inc exc maxResults pool
  cancelMsg := if hasToken then some (.cancelSearch pool) else none

/-- The constructor of `ExtHostWorkspace`: stores the proxy and
`Workspace2.fromData(data)`; the static `_requestIdPool` is left
untouched. -/
def constructInstance (pool : Nat) (data : Option IWorkspaceData) :
    Nat × Option Workspace2 :=
  (pool, Workspace2.fromData data)

/-- One operation of a process-level trace against the static
`_requestIdPool`, tagged with the instance performing it. -/
inductive TraceOp where
  | find (inst : Nat) (inc exc : String) (maxResults : Option Nat) (hasToken : Bool)
  | cancelFired (inst : Nat) (requestId : Nat)
  | acceptData (inst : Nat) (data : Option IWorkspaceData)
deriving DecidableEq, Repr

/-- Runs a trace from a pool value and records, in order, each
`(instance, request id)` pair allocated by a `findFiles` call; only
`findFiles` touches the pool. -/
def allocIds (pool : Nat) : List TraceOp → List (Nat × Nat)
  | [] => []
  | .find i inc exc mx tok :: rest =>
    let r := findFiles pool inc exc mx tok
    (i, r.requestId) :: allocIds r.newPool rest
  | .cancelFired _ _ :: rest => allocIds pool rest
  | .acceptData _ _ :: rest => allocIds pool rest

/-- A `vscode.Position`. -/
structure Position where
  line : Nat
  character : Nat
deriving DecidableEq, Repr

/-- A `vscode.Range` with start and end positions. -/
structure Range where
  start : Position
  stop : Position
deriving DecidableEq, Repr

/-- The enum `vscode.EndOfLine`. -/
inductive EndOfLine where
  | LF
  | CRLF
deriving DecidableEq, Repr

/-- Modelled from the spec: the external end-of-line representation
mapping (`EndOfLine.from` of `extHostTypeConverters`, not under
`src/`), taking the editor-side numeric end-of-line value. -/
def eolFrom : Option EndOfLine → Option Nat
  | some .LF => some 0
  | some .CRLF => some 1
  | none => none

/-- The wire-level range record produced by the range conversion. -/
structure WireRange where
  startLineNumber : Nat
  startColumn : Nat
  endLineNumber : Nat
  endColumn : Nat
deriving DecidableEq, Repr

/-- Modelled from the spec: the external range-conversion collaborator
(`fromRange` of `extHostTypeConverters`, not under `src/`), mapping
zero-based positions to one-based wire coordinates. -/
def fromRange (r : Range) : WireRange where
  startLineNumber := r.start.line + 1
  startColumn := r.start.character + 1
  endLineNumber := r.stop.line + 1
  endColumn := r.stop.character + 1

/-- A `vscode.TextEdit` as consumed by `appyEdit`: an optional range,
the new text, and an optional end-of-line change. -/
structure TextEdit where
  range : Option Range
  newText : String
  newEol : Option EndOfLine
deriving DecidableEq, Repr

/-- An `IResourceEdit` wire record. -/
structure ResourceEdit where
  resource : Uri
  newText : String
  newEol : Option Nat
  range : Option WireRange
deriving DecidableEq, Repr

/-- The record `appyEdit` pushes for one `(resource, edit)` pair. -/
def mkResourceEdit (uri : Uri) (e : TextEdit) : ResourceEdit where
  resource := uri
  newText := e.newText
  newEol := eolFrom e.newEol
  range := e.range.map fromRange

/-- The method `appyEdit`: the two nested loops over `edit.entries()`, flattening
every `(resource, edits)` entry into one wire record per edit; the
resulting list is the payload of `$applyWorkspaceEdit`. -/
def appyEdit : List (Uri × List TextEdit) → List ResourceEdit
  | [] => []
  | (uri, edits) :: rest => edits.map (mkResourceEdit uri) ++ appyEdit rest

/-- The number of wire records contributed by the entries before
position `k`, i.e. the output offset at which entry `k` begins. -/
def offsetBefore (entries : List (Uri × List TextEdit)) (k : Nat) : Nat :=
  ((entries.take k).map fun p => p.2.length).sum

/-- The canonical URI string of a folder, the comparison key used
throughout `$acceptWorkspaceData`. -/
def folderKey (f : WorkspaceFolder) : String :=
  f.uri.toStr

/- ---------------------------------------------------------------- -/
/- Theorems.                                                        -/
/- ---------------------------------------------------------------- -/

theorem lexLtB_irrefl (l : List Char) : lexLtB l l = false := by
  induction l with
  | nil => rfl
  | cons c cs ih => simp [lexLtB, ih]

theorem lexLtB_trans {a b c : List Char} (h1 : lexLtB a b = true) (h2 : lexLtB b c = true) :
    lexLtB a c = true := by
  induction a generalizing b c with
  | nil =>
    cases c with
    | nil => cases b <;> simp [lexLtB] at h1 h2
    | cons z zs => rfl
  | cons x xs ih =>
    cases b with
    | nil => simp [lexLtB] at h1
    | cons y ys =>
      cases c with
      | nil => simp [lexLtB] at h2
      | cons z zs =>
        simp only [lexLtB] at h1 h2 ⊢
        by_cases hxy : x < y
        · by_cases hyz : y < z
          · simp [lt_trans hxy hyz]
          · by_cases hzy : z < y
            · simp [hyz, hzy] at h2
            · have hyz' : y = z := le_antisymm (not_lt.mp hzy) (not_lt.mp hyz)
              subst hyz'
              simp [hxy]
        · by_cases hyx : y < x
          · simp [hxy, hyx] at h1
          · have hxy' : x = y := le_antisymm (not_lt.mp hyx) (not_lt.mp hxy)
            subst hxy'
            simp only [lt_irrefl, if_false] at h1
            by_cases hxz : x < z
            · simp [hxz]
            · by_cases hzx : z < x
              · simp [hxz, hzx] at h2
              · simp only [hxz, hzx, if_false] at h2 ⊢
                exact ih h1 h2

theorem lexLtB_eq_of_not {a b : List Char} (h1 : lexLtB a b = false) (h2 : lexLtB b a = false) :
    a = b := by
  induction a generalizing b with
  | nil =>
    cases b with
    | nil => rfl
    | cons y ys => simp [lexLtB] at h1
  | cons x xs ih =>
    cases b with
    | nil => simp [lexLtB] at h2
    | cons y ys =>
      simp only [lexLtB] at h1 h2
      by_cases hxy : x < y
      · simp [hxy] at h1
      · by_cases hyx : y < x
        · simp [hxy, hyx] at h2
        · have hxy' : x = y := le_antisymm (not_lt.mp hyx) (not_lt.mp hxy)
          subst hxy'
          simp only [lt_irrefl, if_false] at h1 h2
          exact congrArg (x :: ·) (ih h1 h2)

theorem lexLtB_asymm {a b : List Char} (h : lexLtB a b = true) : lexLtB b a = false := by
  cases hba : lexLtB b a with
  | false => rfl
  | true =>
    have := lexLtB_trans h hba
    rw [lexLtB_irrefl] at this
    exact absurd this (by simp)

theorem lexLtB_false_trans {a b c : List Char} (h1 : lexLtB b a = false)
    (h2 : lexLtB c b = false) : lexLtB c a = false := by
  cases hca : lexLtB c a with
  | false => rfl
  | true =>
    cases hab : lexLtB a b with
    | true =>
      have := lexLtB_trans hca hab
      rw [h2] at this
      exact this.symm
    | false =>
      have hEq : a = b := lexLtB_eq_of_not hab h1
      subst hEq
      rw [hca] at h2
      exact h2

theorem str_ext {a b : String} (h : a.data = b.data) : a = b := by
  cases a
  cases b
  exact congrArg String.mk h

theorem strLt_irrefl (a : String) : ¬ strLt a a := by
  simp [strLt, lexLtB_irrefl]

theorem strLt_trans {a b c : String} (h1 : strLt a b) (h2 : strLt b c) : strLt a c :=
  lexLtB_trans h1 h2

theorem strLt_asymm {a b : String} (h : strLt a b) : ¬ strLt b a := by
  simp [strLt, lexLtB_asymm h]

theorem strLt_ne {a b : String} (h : strLt a b) : a ≠ b := by
  intro hEq
  subst hEq
  exact strLt_irrefl a h

theorem strLe_of_not_lt {a b : String} (h : ¬ strLt b a) : strLe a b := by
  simp [strLt] at h
  exact h

theorem strLt_of_le_of_ne {a b : String} (h : strLe a b) (hne : a ≠ b) : strLt a b := by
  cases hab : lexLtB a.data b.data with
  | true => exact hab
  | false => exact absurd (str_ext (lexLtB_eq_of_not hab h)) hne

instance : IsTrans String strLe :=
  ⟨fun _ _ _ h1 h2 => lexLtB_false_trans h1 h2⟩

instance : IsAntisymm String strLe :=
  ⟨fun _ _ h1 h2 => str_ext (lexLtB_eq_of_not h2 h1)⟩

instance : IsTotal String strLe := by
  refine ⟨fun a b => ?_⟩
  cases hab : lexLtB a.data b.data with
  | false => exact Or.inr hab
  | true => exact Or.inl (lexLtB_asymm hab)

instance : IsTrans WorkspaceFolder folderLE :=
  ⟨fun _ _ _ h1 h2 => lexLtB_false_trans h1 h2⟩

instance : IsTotal WorkspaceFolder folderLE := by
  refine ⟨fun a b => ?_⟩
  cases hab : lexLtB a.uri.toStr.data b.uri.toStr.data with
  | false => exact Or.inr hab
  | true => exact Or.inl (lexLtB_asymm hab)

theorem strCompare_eq_lt {a b : String} : strCompare a b = .lt ↔ strLt a b := by
  unfold strCompare
  split_ifs with h1 h2 <;> simp [h1, *]

theorem strCompare_eq_gt {a b : String} : strCompare a b = .gt ↔ strLt b a := by
  unfold strCompare
  split_ifs with h1 h2
  · simp only [false_iff]
    exact strLt_asymm h1
  · simp [h2]
  · simp [h2]

theorem strCompare_eq_eq {a b : String} : strCompare a b = .eq ↔ a = b := by
  unfold strCompare
  split_ifs with h1 h2
  · simpa using strLt_ne h1
  · simpa using (strLt_ne h2).symm
  · simp only [true_iff]
    exact str_ext (lexLtB_eq_of_not (by simpa [strLt] using h1) (by simpa [strLt] using h2))

theorem deltaMerge_nil_left (cmp : WorkspaceFolder → WorkspaceFolder → Ordering)
    (after : List WorkspaceFolder) : deltaMerge cmp [] after = ([], after) :=
  rfl

theorem deltaMerge_nil_right (cmp : WorkspaceFolder → WorkspaceFolder → Ordering)
    (b : WorkspaceFolder) (bs : List WorkspaceFolder) :
    deltaMerge cmp (b :: bs) [] = (b :: bs, []) :=
  rfl

theorem deltaMerge_cons_cons (cmp : WorkspaceFolder → WorkspaceFolder → Ordering)
    (b a : WorkspaceFolder) (bs as : List WorkspaceFolder) :
    deltaMerge cmp (b :: bs) (a :: as) =
      match cmp b a with
      | .eq => deltaMerge cmp bs as
      | .lt =>
        ((b :: (deltaMerge cmp bs (a :: as)).1), (deltaMerge cmp bs (a :: as)).2)
      | .gt =>
        ((deltaMerge cmp (b :: bs) as).1, a :: (deltaMerge cmp (b :: bs) as).2) := by
  simp only [deltaMerge, deltaMergeGo]

theorem compareWorkspaceFolder_self (f : WorkspaceFolder) :
    compareWorkspaceFolder f f = .eq := by
  simp [compareWorkspaceFolder, strCompare, strLt, lexLtB_irrefl]

theorem deltaMerge_self (l : List WorkspaceFolder) :
    deltaMerge compareWorkspaceFolder l l = ([], []) := by
  induction l with
  | nil => rfl
  | cons x xs ih =>
    rw [deltaMerge_cons_cons, compareWorkspaceFolder_self]
    exact ih

theorem sortFolders_sorted (l : List WorkspaceFolder) :
    (sortFolders l).Sorted folderLE :=
  List.sorted_insertionSort folderLE l

theorem sortFolders_idem (l : List WorkspaceFolder) :
    sortFolders (sortFolders l) = sortFolders l :=
  List.Sorted.insertionSort_eq (sortFolders_sorted l)

/-- C3: every accept call returns exactly one change event (structural
in the model: `acceptWorkspaceData` yields a single `ChangeEvent`), and
a second accept with the same workspace data as the first, from any
starting state, yields an event whose added and removed lists are both
empty. -/
theorem accept_twice_empty_event (ws : Option Workspace2) (data : Option IWorkspaceData) :
    (acceptWorkspaceData (acceptWorkspaceData ws data).1 data).2 = ⟨[], []⟩ := by
  cases data with
  | none =>
    cases ws <;> rfl
  | some d =>
    simp [acceptWorkspaceData, Workspace2.fromData, sortFolders_idem, deltaMerge_self]

/-- C7: `getPath` returns `undefined` with no workspace or zero roots,
and otherwise the filesystem path of the first root, whatever the root
count. -/
theorem getPath_characterization (w : Workspace2) :
    getPath none = none ∧
    (w.roots = [] → getPath (some w) = none) ∧
    (∀ r rs, w.roots = r :: rs → getPath (some w) = some r.fsPath) := by
  refine ⟨rfl, ?_, ?_⟩
  · intro h
    simp [getPath, h]
  · intro r rs h
    simp [getPath, h]

/-- Witness for `getPath_characterization` at a two-root workspace. -/
theorem getPath_characterization_witness :
    ((Workspace2.ofData ⟨"w", "w", [⟨"file:///a", "/a"⟩, ⟨"file:///b", "/b"⟩]⟩).roots =
        ⟨"file:///a", "/a"⟩ :: [⟨"file:///b", "/b"⟩]) ∧
    getPath (some (Workspace2.ofData ⟨"w", "w", [⟨"file:///a", "/a"⟩, ⟨"file:///b", "/b"⟩]⟩)) =
      some "/a" :=
  ⟨rfl,
    (getPath_characterization
        (Workspace2.ofData ⟨"w", "w", [⟨"file:///a", "/a"⟩, ⟨"file:///b", "/b"⟩]⟩)).2.2
      ⟨"file:///a", "/a"⟩ [⟨"file:///b", "/b"⟩] rfl⟩

/-- C9: with absent workspace data every facade query returns its
no-workspace value: the model functions are total, so no exception can
arise, `fromData` yields `none`, folder queries yield `none`, `getPath`
yields `none`, and `getRelativePath` yields the normalized input. -/
theorem noWorkspace_queries (u : Uri) (s : String) :
    Workspace2.fromData none = none ∧
    getWorkspaceFolders none = none ∧
    getEnclosingWorkspaceFolder none u = none ∧
    getPath none = none ∧
    getRelativePath none (.str s) = some (normalize s) ∧
    getRelativePath none (.uri u) = some (normalize u.fsPath) := by
  refine ⟨rfl, rfl, rfl, rfl, ?_, ?_⟩
  · by_cases h : s = ""
    · subst h; rfl
    · simp [getRelativePath, pathOfInput, h]
  · by_cases h : u.fsPath = ""
    · simp [getRelativePath, pathOfInput, h, normalize]
    · simp [getRelativePath, pathOfInput, h]

/-- C10: an empty-string input is returned as is by `getRelativePath`
(the early falsy return fires before any normalization), and an
`undefined` input is returned as `undefined`, whatever the workspace
state. -/
theorem getRelativePath_falsy (ws : Option Workspace2) :
    getRelativePath ws (.str "") = some "" ∧ getRelativePath ws .undef = none := by
  exact ⟨rfl, rfl⟩

theorem not_mem_keys_of_lt {b : WorkspaceFolder} {l : List WorkspaceFolder}
    (h : ∀ x ∈ l, strLt (folderKey b) (folderKey x)) :
    folderKey b ∉ l.map folderKey := by
  intro hmem
  rcases List.mem_map.mp hmem with ⟨x, hx, hxe⟩
  exact strLt_irrefl _ (hxe ▸ h x hx)

theorem deltaMerge_eq_filter :
    ∀ (before after : List WorkspaceFolder),
      before.Pairwise (fun x y => strLt (folderKey x) (folderKey y)) →
      after.Pairwise (fun x y => strLt (folderKey x) (folderKey y)) →
      deltaMerge compareWorkspaceFolder before after =
        (before.filter fun b => !(folderKey b ∈ after.map folderKey),
         after.filter fun a => !(folderKey a ∈ before.map folderKey)) := by
  intro before
  induction before with
  | nil =>
    intro after _ _
    rw [deltaMerge_nil_left]
    simp
  | cons b bs ihb =>
    intro after hb ha
    revert ha
    induction after with
    | nil =>
      intro _
      rw [deltaMerge_nil_right]
      simp
    | cons a as iha =>
      intro ha
      have hbParts := List.pairwise_cons.mp hb
      have haParts := List.pairwise_cons.mp ha
      cases hcmp : compareWorkspaceFolder b a with
      | eq =>
        have hkey : folderKey b = folderKey a := strCompare_eq_eq.mp hcmp
        simp only [deltaMerge_cons_cons, hcmp]
        rw [ihb as hbParts.2 haParts.2]
        refine Prod.ext ?_ ?_
        · simp only []
          rw [List.filter_cons_of_neg (by simp [hkey]),
            List.filter_congr ?_]
          intro x hx
          refine congrArg Bool.not (decide_eq_decide.mpr ?_)
          have hax : folderKey x ≠ folderKey a := fun hEq =>
            strLt_irrefl _ (hEq ▸ hkey ▸ hbParts.1 x hx)
          simp [hax]
        · simp only []
          rw [List.filter_cons_of_neg (by simp [hkey.symm]),
            List.filter_congr ?_]
          intro x hx
          refine congrArg Bool.not (decide_eq_decide.mpr ?_)
          have hbx : folderKey x ≠ folderKey b := fun hEq =>
            strLt_irrefl _ (hEq ▸ hkey.symm ▸ haParts.1 x hx)
          simp [hbx]
      | lt =>
        have hlt : strLt (folderKey b) (folderKey a) := strCompare_eq_lt.mp hcmp
        have hbelow : ∀ x ∈ a :: as, strLt (folderKey b) (folderKey x) := by
          intro x hx
          rcases List.mem_cons.mp hx with h | h
          · exact h ▸ hlt
          · exact strLt_trans hlt (haParts.1 x h)
        simp only [deltaMerge_cons_cons, hcmp]
        rw [ihb (a :: as) hbParts.2 ha]
        refine Prod.ext ?_ ?_
        · simp only []
          have hpred : (!decide (folderKey b ∈ List.map folderKey (a :: as))) = true := by
            rw [Bool.not_eq_true', decide_eq_false_iff_not]
            exact not_mem_keys_of_lt hbelow
          rw [List.filter_cons, if_pos hpred]
        · simp only []
          rw [List.filter_congr ?_]
          intro x hx
          refine congrArg Bool.not (decide_eq_decide.mpr ?_)
          have hbx : folderKey x ≠ folderKey b := fun hEq =>
            strLt_irrefl _ (hEq ▸ hbelow x hx)
          simp [hbx]
      | gt =>
        have hgt : strLt (folderKey a) (folderKey b) := strCompare_eq_gt.mp hcmp
        have hbelow : ∀ x ∈ b :: bs, strLt (folderKey a) (folderKey x) := by
          intro x hx
          rcases List.mem_cons.mp hx with h | h
          · exact h ▸ hgt
          · exact strLt_trans hgt (hbParts.1 x h)
        simp only [deltaMerge_cons_cons, hcmp]
        rw [iha haParts.2]
        refine Prod.ext ?_ ?_
        · simp only []
          rw [List.filter_congr ?_]
          intro x hx
          refine congrArg Bool.not (decide_eq_decide.mpr ?_)
          have hax : folderKey x ≠ folderKey a := fun hEq =>
            strLt_irrefl _ (hEq ▸ hbelow x hx)
          simp [hax]
        · simp only []
          have hpred : (!decide (folderKey a ∈ List.map folderKey (b :: bs))) = true := by
            rw [Bool.not_eq_true', decide_eq_false_iff_not]
            exact not_mem_keys_of_lt hbelow
          rw [List.filter_cons, if_pos hpred]

theorem ofData_folders_keys (d : IWorkspaceData) :
    (Workspace2.ofData d).folders.map folderKey = d.roots.map Uri.toStr := by
  simp only [Workspace2.ofData, List.map_map]
  have hfun : (folderKey ∘ fun p : Nat × Uri => (⟨basename p.2.fsPath, p.2, p.1⟩ : WorkspaceFolder)) =
      (Uri.toStr ∘ Prod.snd) := rfl
  rw [hfun, ← List.map_map, List.enum_map_snd]

theorem sortFolders_perm (l : List WorkspaceFolder) : List.Perm (sortFolders l) l :=
  List.perm_insertionSort folderLE l

theorem sortFolders_strict (l : List WorkspaceFolder) (h : (l.map folderKey).Nodup) :
    (sortFolders l).Pairwise fun x y => strLt (folderKey x) (folderKey y) := by
  have hs : (sortFolders l).Pairwise folderLE := sortFolders_sorted l
  have hn : ((sortFolders l).map folderKey).Nodup :=
    (((sortFolders_perm l).map folderKey).nodup_iff).mpr h
  have hpn : (sortFolders l).Pairwise fun x y => folderKey x ≠ folderKey y :=
    List.pairwise_map.mp hn
  exact (hs.and hpn).imp fun hxy => strLt_of_le_of_ne hxy.1 hxy.2

theorem filter_key_map (l : List WorkspaceFolder) (L : List String) :
    ((l.filter fun a => !(folderKey a ∈ L)).map folderKey) =
      (l.map folderKey).filter fun k => !(k ∈ L) := by
  induction l with
  | nil => rfl
  | cons a as ih =>
    by_cases h : folderKey a ∈ L <;> simp [h, ih]

theorem sortFolders_keys_sorted (l : List WorkspaceFolder) :
    ((sortFolders l).map folderKey).Pairwise strLe :=
  List.pairwise_map.mpr (sortFolders_sorted l)

theorem appyEdit_length (entries : List (Uri × List TextEdit)) :
    (appyEdit entries).length = (entries.map fun q => q.2.length).sum := by
  induction entries with
  | nil => rfl
  | cons hd rest ih =>
    cases hd with
    | mk u eds => simp [appyEdit, ih]

theorem appyEdit_getElem (entries : List (Uri × List TextEdit)) (k j : Nat)
    (uri : Uri) (edits : List TextEdit) (e : TextEdit)
    (hk : entries[k]? = some (uri, edits)) (hj : edits[j]? = some e) :
    (appyEdit entries)[offsetBefore entries k + j]? = some (mkResourceEdit uri e) := by
  induction entries generalizing k with
  | nil => simp at hk
  | cons hd rest ih =>
    cases hd with
    | mk u eds =>
      cases k with
      | zero =>
        simp only [List.getElem?_cons_zero, Option.some.injEq] at hk
        injection hk with h1a h1b
        subst h1a
        subst h1b
        have hjlen : j < eds.length := (List.getElem?_eq_some.mp hj).1
        have hoff : offsetBefore ((u, eds) :: rest) 0 + j = j := by
          simp [offsetBefore]
        rw [hoff]
        simp only [appyEdit]
        rw [List.getElem?_append]
        rw [if_pos (by simpa using hjlen)]
        simp [List.getElem?_map, hj]
      | succ k2 =>
        simp only [List.getElem?_cons_succ] at hk
        have hoff : offsetBefore ((u, eds) :: rest) (k2 + 1) + j =
            eds.length + (offsetBefore rest k2 + j) := by
          simp [offsetBefore, Nat.add_assoc]
        rw [hoff]
        simp only [appyEdit]
        rw [List.getElem?_append_right (by simp)]
        have hlen : (eds.map (mkResourceEdit u)).length = eds.length := by simp
        rw [hlen, Nat.add_sub_cancel_left]
        exact ih k2 hk

/-- C6: the flattened wire list of `appyEdit` has length equal to the
sum of the edit counts over all resources; the record at the output
position of the j-th edit of the k-th resource (resource-major,
edit-minor order) carries that resource's URI, the edit's new text, the
converted end-of-line value and the converted range; and the record's
range is absent exactly when the edit specifies no range. -/
theorem appyEdit_characterization (entries : List (Uri × List TextEdit)) (k j : Nat)
    (uri : Uri) (edits : List TextEdit) (e : TextEdit)
    (hk : entries[k]? = some (uri, edits)) (hj : edits[j]? = some e) :
    (appyEdit entries).length = (entries.map fun q => q.2.length).sum ∧
    (appyEdit entries)[offsetBefore entries k + j]? =
      some ⟨uri, e.newText, eolFrom e.newEol, e.range.map fromRange⟩ ∧
    (e.range.map fromRange = none ↔ e.range = none) := by
  refine ⟨appyEdit_length entries, appyEdit_getElem entries k j uri edits e hk hj, ?_⟩
  cases e.range <;> simp

/-- Witness for `appyEdit_characterization` on a one-resource,
one-edit batch. -/
theorem appyEdit_characterization_witness :
    ([((⟨"file:///a", "/a"⟩ : Uri), [(⟨none, "txt", some .LF⟩ : TextEdit)])][0]? =
        some (⟨"file:///a", "/a"⟩, [⟨none, "txt", some .LF⟩])) ∧
    ([(⟨none, "txt", some .LF⟩ : TextEdit)][0]? = some ⟨none, "txt", some .LF⟩) ∧
    ((appyEdit [((⟨"file:///a", "/a"⟩ : Uri), [(⟨none, "txt", some .LF⟩ : TextEdit)])]).length =
        (([((⟨"file:///a", "/a"⟩ : Uri), [(⟨none, "txt", some .LF⟩ : TextEdit)])].map
            fun q => q.2.length).sum) ∧
      (appyEdit [((⟨"file:///a", "/a"⟩ : Uri),
          [(⟨none, "txt", some .LF⟩ : TextEdit)])])[offsetBefore
            [((⟨"file:///a", "/a"⟩ : Uri), [(⟨none, "txt", some .LF⟩ : TextEdit)])] 0 + 0]? =
        some ⟨⟨"file:///a", "/a"⟩, "txt", eolFrom (some .LF), (none : Option Range).map fromRange⟩ ∧
      ((none : Option Range).map fromRange = none ↔ (none : Option Range) = none)) :=
  ⟨rfl, rfl,
    appyEdit_characterization
      [((⟨"file:///a", "/a"⟩ : Uri), [(⟨none, "txt", some .LF⟩ : TextEdit)])] 0 0
      ⟨"file:///a", "/a"⟩ [⟨none, "txt", some .LF⟩] ⟨none, "txt", some .LF⟩ rfl rfl⟩

/-- C2 evaluation: accepting workspace data whose roots are not already
in canonical-URI order leaves the stored snapshot with an in-place
sorted folder list, so `folders[0].index = 1` and `folders[0].uri`
differs from `roots[0]`: the documented snapshot invariant is broken by
the in-place `Array.prototype.sort` in `$acceptWorkspaceData`. -/
theorem accept_breaks_snapshot_invariant :
    ((acceptWorkspaceData none (some ⟨"w", "w", [⟨"file:///b", "/b"⟩, ⟨"file:///a", "/a"⟩]⟩)).1.map
        fun w => w.folders.map (fun f => f.index)) = some [1, 0] ∧
    ((acceptWorkspaceData none (some ⟨"w", "w", [⟨"file:///b", "/b"⟩, ⟨"file:///a", "/a"⟩]⟩)).1.map
        fun w => (w.folders.map (fun f => f.uri.toStr), w.roots.map Uri.toStr)) =
      some (["file:///a", "file:///b"], ["file:///b", "file:///a"]) := by
  exact ⟨by decide, by decide⟩

/-- C5 counterexample: the request-id pool is static, so the first
`findFiles` call on a freshly constructed second instance allocates
request id 1, not 0, after one prior call on another instance. -/
theorem findFiles_fresh_instance_not_zero :
    (findFiles
        (constructInstance
          (findFiles (constructInstance 0 none).1 "i1" "e1" none false).newPool none).1
        "i2" "e2" none true).requestId = 1 ∧
    (findFiles
        (constructInstance
          (findFiles (constructInstance 0 none).1 "i1" "e1" none false).newPool none).1
        "i2" "e2" none true).requestId ≠ 0 ∧
    (findFiles
        (constructInstance
          (findFiles (constructInstance 0 none).1 "i1" "e1" none false).newPool none).1
        "i2" "e2" none true).cancelMsg = some (.cancelSearch 1) := by
  exact ⟨rfl, by decide, rfl⟩

theorem allocIds_ge (pool : Nat) (ops : List TraceOp) :
    ∀ q ∈ allocIds pool ops, pool ≤ q.2 := by
  induction ops generalizing pool with
  | nil => simp [allocIds]
  | cons op rest ih =>
    cases op with
    | find i inc exc mx tok =>
      intro q hq
      simp only [allocIds, findFiles, List.mem_cons] at hq
      rcases hq with h | h
      · subst h; exact Nat.le_refl pool
      · exact Nat.le_of_succ_le (ih (pool + 1) q h)
    | cancelFired i r =>
      intro q hq
      exact ih pool q (by simpa [allocIds] using hq)
    | acceptData i d =>
      intro q hq
      exact ih pool q (by simpa [allocIds] using hq)

theorem allocIds_pairwise (pool : Nat) (ops : List TraceOp) :
    (allocIds pool ops).Pairwise fun q r => q.2 < r.2 := by
  induction ops generalizing pool with
  | nil => simp [allocIds]
  | cons op rest ih =>
    cases op with
    | find i inc exc mx tok =>
      simp only [allocIds, findFiles]
      refine List.Pairwise.cons ?_ (ih (pool + 1))
      intro q hq
      exact Nat.lt_of_succ_le (allocIds_ge (pool + 1) rest q hq)
    | cancelFired _ _ => simpa [allocIds] using ih pool
    | acceptData _ _ => simpa [allocIds] using ih pool

/-- C4: over any trace of operations against the static request-id
pool, the request ids allocated by the `findFiles` calls of any one
instance are strictly increasing (hence pairwise distinct and never
reused), even across interleaved cancellations, accepts and calls of
other instances. -/
theorem findFiles_ids_strictly_increasing (pool : Nat) (ops : List TraceOp) (inst : Nat) :
    (((allocIds pool ops).filter fun q => q.1 == inst).map Prod.snd).Pairwise (· < ·) := by
  have h1 : (((allocIds pool ops).filter fun q => q.1 == inst)).Pairwise fun q r => q.2 < r.2 :=
    List.Pairwise.sublist (List.filter_sublist _) (allocIds_pairwise pool ops)
  exact (List.pairwise_map).mpr h1

theorem relLoop_eq_find (p : String) (roots : List Uri) :
    relLoop p roots =
      (roots.find? fun r =>
          !(relative r.fsPath p = "" ∨ startsWithDotDot (relative r.fsPath p))).map
        fun r => normalize (relative r.fsPath p) := by
  induction roots with
  | nil => rfl
  | cons r rs ih =>
    by_cases h : relative r.fsPath p = "" ∨ startsWithDotDot (relative r.fsPath p)
    · simp only [relLoop]
      rw [if_pos h, ih, List.find?_cons]
      simp [h]
    · simp only [relLoop]
      rw [if_neg h, List.find?_cons]
      simp [h]

theorem getRelativePath_eq_spec_str (ws : Option Workspace2) (p : String) :
    getRelativePath ws (.str p) = getRelativePathSpec ws (.str p) := by
  by_cases hp : p = ""
  · subst hp; rfl
  · cases ws with
    | none => simp [getRelativePath, getRelativePathSpec, pathOfInput, hp]
    | some w =>
      by_cases hr : w.roots.isEmpty
      · have : w.roots = [] := by simpa [List.isEmpty_iff] using hr
        simp [getRelativePath, getRelativePathSpec, pathOfInput, hp, hr, this]
      · simp only [getRelativePath, getRelativePathSpec, pathOfInput, hp, if_neg, hr,
          Bool.false_eq_true, relLoop_eq_find]
        cases hf : w.roots.find? fun r =>
            !(relative r.fsPath p = "" ∨ startsWithDotDot (relative r.fsPath p)) with
        | none => simp [hf, hr]
        | some r => simp [hf, hr]

/-- C8: `getRelativePath` agrees, on every workspace state and every
input, with the function written from the spec sentence: normalized
input without a workspace or with zero roots, otherwise the normalized
relative path against the first root in snapshot order whose relative
path is nonempty and does not begin with two dots, with the normalized
input as fallback. -/
theorem getRelativePath_eq_spec (ws : Option Workspace2) (x : PathOrUri) :
    getRelativePath ws x = getRelativePathSpec ws x := by
  cases x with
  | undef => rfl
  | str s => exact getRelativePath_eq_spec_str ws s
  | uri u =>
    have h1 : getRelativePath ws (.uri u) = getRelativePath ws (.str u.fsPath) := rfl
    have h2 : getRelativePathSpec ws (.uri u) = getRelativePathSpec ws (.str u.fsPath) := rfl
    rw [h1, h2]
    exact getRelativePath_eq_spec_str ws u.fsPath

theorem accept_some_event (dOld dNew : IWorkspaceData) :
    (acceptWorkspaceData (Workspace2.fromData (some dOld)) (some dNew)).2 =
      ⟨(deltaMerge compareWorkspaceFolder
          (sortFolders (Workspace2.ofData dOld).folders)
          (sortFolders (Workspace2.ofData dNew).folders)).2,
        (deltaMerge compareWorkspaceFolder
          (sortFolders (Workspace2.ofData dOld).folders)
          (sortFolders (Workspace2.ofData dNew).folders)).1⟩ :=
  rfl

theorem accept_event_eq (dOld dNew : IWorkspaceData)
    (h1 : (dOld.roots.map Uri.toStr).Nodup)
    (h2 : (dNew.roots.map Uri.toStr).Nodup) :
    (acceptWorkspaceData (Workspace2.fromData (some dOld)) (some dNew)).2 =
      ⟨(sortFolders (Workspace2.ofData dNew).folders).filter
          (fun a => !(folderKey a ∈ (sortFolders (Workspace2.ofData dOld).folders).map folderKey)),
        (sortFolders (Workspace2.ofData dOld).folders).filter
          (fun b => !(folderKey b ∈ (sortFolders (Workspace2.ofData dNew).folders).map folderKey))⟩ := by
  have hso := sortFolders_strict (Workspace2.ofData dOld).folders
    (by rw [ofData_folders_keys]; exact h1)
  have hsn := sortFolders_strict (Workspace2.ofData dNew).folders
    (by rw [ofData_folders_keys]; exact h2)
  rw [accept_some_event, deltaMerge_eq_filter _ _ hso hsn]

/-- C1 (amended): provided each snapshot's roots carry pairwise
distinct canonical URI strings, the change event of a single accept
call contains as added exactly the folders of the new snapshot whose
canonical URI string does not occur among the old snapshot's folders,
as removed exactly the folders of the old snapshot whose canonical URI
string does not occur among the new snapshot's folders, and the
canonical URI strings of the added and removed lists are unchanged
under arbitrary permutation of either root list. -/
theorem accept_delta_characterization
    (dOld dNew dOld2 dNew2 : IWorkspaceData)
    (h1 : (dOld.roots.map Uri.toStr).Nodup)
    (h2 : (dNew.roots.map Uri.toStr).Nodup)
    (hp1 : List.Perm dOld2.roots dOld.roots)
    (hp2 : List.Perm dNew2.roots dNew.roots) :
    (∀ f, f ∈ (acceptWorkspaceData (Workspace2.fromData (some dOld)) (some dNew)).2.added ↔
        (f ∈ (Workspace2.ofData dNew).folders ∧
          folderKey f ∉ (Workspace2.ofData dOld).folders.map folderKey)) ∧
    (∀ f, f ∈ (acceptWorkspaceData (Workspace2.fromData (some dOld)) (some dNew)).2.removed ↔
        (f ∈ (Workspace2.ofData dOld).folders ∧
          folderKey f ∉ (Workspace2.ofData dNew).folders.map folderKey)) ∧
    ((acceptWorkspaceData (Workspace2.fromData (some dOld2)) (some dNew2)).2.added.map folderKey =
      (acceptWorkspaceData (Workspace2.fromData (some dOld)) (some dNew)).2.added.map folderKey) ∧
    ((acceptWorkspaceData (Workspace2.fromData (some dOld2)) (some dNew2)).2.removed.map folderKey =
      (acceptWorkspaceData (Workspace2.fromData (some dOld)) (some dNew)).2.removed.map folderKey) := by
  have h1b : (dOld2.roots.map Uri.toStr).Nodup := ((hp1.map Uri.toStr).nodup_iff).mpr h1
  have h2b : (dNew2.roots.map Uri.toStr).Nodup := ((hp2.map Uri.toStr).nodup_iff).mpr h2
  rw [accept_event_eq dOld dNew h1 h2, accept_event_eq dOld2 dNew2 h1b h2b]
  have hOldKeys : (sortFolders (Workspace2.ofData dOld2).folders).map folderKey =
      (sortFolders (Workspace2.ofData dOld).folders).map folderKey := by
    refine List.eq_of_perm_of_sorted ?_ (sortFolders_keys_sorted _) (sortFolders_keys_sorted _)
    refine ((sortFolders_perm _).map folderKey).trans
      (List.Perm.trans ?_ ((sortFolders_perm _).map folderKey).symm)
    rw [ofData_folders_keys, ofData_folders_keys]
    exact hp1.map Uri.toStr
  have hNewKeys : (sortFolders (Workspace2.ofData dNew2).folders).map folderKey =
      (sortFolders (Workspace2.ofData dNew).folders).map folderKey := by
    refine List.eq_of_perm_of_sorted ?_ (sortFolders_keys_sorted _) (sortFolders_keys_sorted _)
    refine ((sortFolders_perm _).map folderKey).trans
      (List.Perm.trans ?_ ((sortFolders_perm _).map folderKey).symm)
    rw [ofData_folders_keys, ofData_folders_keys]
    exact hp2.map Uri.toStr
  have e1 : ∀ f : WorkspaceFolder, (f ∈ sortFolders (Workspace2.ofData dNew).folders) ↔
      f ∈ (Workspace2.ofData dNew).folders := fun f => (sortFolders_perm _).mem_iff
  have e1o : ∀ f : WorkspaceFolder, (f ∈ sortFolders (Workspace2.ofData dOld).folders) ↔
      f ∈ (Workspace2.ofData dOld).folders := fun f => (sortFolders_perm _).mem_iff
  have e2 : ∀ k : String, (k ∈ (sortFolders (Workspace2.ofData dOld).folders).map folderKey) ↔
      k ∈ (Workspace2.ofData dOld).folders.map folderKey := fun k =>
    ((sortFolders_perm _).map folderKey).mem_iff
  have e2n : ∀ k : String, (k ∈ (sortFolders (Workspace2.ofData dNew).folders).map folderKey) ↔
      k ∈ (Workspace2.ofData dNew).folders.map folderKey := fun k =>
    ((sortFolders_perm _).map folderKey).mem_iff
  refine ⟨?_, ?_, ?_, ?_⟩
  · intro f
    simp [List.mem_filter, e1, e2]
  · intro f
    simp [List.mem_filter, e1o, e2n]
  · rw [filter_key_map, filter_key_map, hOldKeys, hNewKeys]
  · rw [filter_key_map, filter_key_map, hOldKeys, hNewKeys]

/-- C1 counterexample: with a duplicated root URI in the prior
workspace data, the merge delta reports a removed folder whose
canonical URI string still occurs in the new snapshot's folder list,
so the removed set is not the claimed key-level set difference. -/
theorem accept_delta_duplicate_ctrex :
    ((acceptWorkspaceData
        (Workspace2.fromData
          (some ⟨"w", "w", [⟨"file:///a", "/a"⟩, ⟨"file:///a", "/a"⟩]⟩))
        (some ⟨"w", "w", [⟨"file:///a", "/a"⟩]⟩)).2.removed.map folderKey = ["file:///a"]) ∧
    ("file:///a" ∈ (Workspace2.ofData ⟨"w", "w", [⟨"file:///a", "/a"⟩]⟩).folders.map folderKey) ∧
    ((acceptWorkspaceData
        (Workspace2.fromData
          (some ⟨"w", "w", [⟨"file:///a", "/a"⟩, ⟨"file:///a", "/a"⟩]⟩))
        (some ⟨"w", "w", [⟨"file:///a", "/a"⟩]⟩)).2.added = []) := by
  exact ⟨by decide, by decide, by decide⟩

/-- Witness for `accept_delta_characterization`: old roots `[/a]`, new
roots `[/a, /b]`, the new list also given in swapped order; the folder
for `/b` is added, and the key lists agree across the permutation. -/
theorem accept_delta_characterization_witness :
    (((⟨"w", "w", [⟨"file:///a", "/a"⟩]⟩ : IWorkspaceData).roots.map Uri.toStr).Nodup) ∧
    (((⟨"w", "w", [⟨"file:///a", "/a"⟩, ⟨"file:///b", "/b"⟩]⟩ : IWorkspaceData).roots.map
        Uri.toStr).Nodup) ∧
    (List.Perm (⟨"w", "w", [⟨"file:///a", "/a"⟩]⟩ : IWorkspaceData).roots
      (⟨"w", "w", [⟨"file:///a", "/a"⟩]⟩ : IWorkspaceData).roots) ∧
    (List.Perm (⟨"w", "w", [⟨"file:///b", "/b"⟩, ⟨"file:///a", "/a"⟩]⟩ : IWorkspaceData).roots
      (⟨"w", "w", [⟨"file:///a", "/a"⟩, ⟨"file:///b", "/b"⟩]⟩ : IWorkspaceData).roots) ∧
    ((⟨"b", ⟨"file:///b", "/b"⟩, 1⟩ : WorkspaceFolder) ∈
        (acceptWorkspaceData
          (Workspace2.fromData (some ⟨"w", "w", [⟨"file:///a", "/a"⟩]⟩))
          (some ⟨"w", "w", [⟨"file:///a", "/a"⟩, ⟨"file:///b", "/b"⟩]⟩)).2.added ↔
      ((⟨"b", ⟨"file:///b", "/b"⟩, 1⟩ : WorkspaceFolder) ∈
          (Workspace2.ofData ⟨"w", "w", [⟨"file:///a", "/a"⟩, ⟨"file:///b", "/b"⟩]⟩).folders ∧
        folderKey (⟨"b", ⟨"file:///b", "/b"⟩, 1⟩ : WorkspaceFolder) ∉
          (Workspace2.ofData ⟨"w", "w", [⟨"file:///a", "/a"⟩]⟩).folders.map folderKey)) ∧
    ((acceptWorkspaceData
        (Workspace2.fromData (some ⟨"w", "w", [⟨"file:///a", "/a"⟩]⟩))
        (some ⟨"w", "w", [⟨"file:///b", "/b"⟩, ⟨"file:///a", "/a"⟩]⟩)).2.added.map folderKey =
      (acceptWorkspaceData
        (Workspace2.fromData (some ⟨"w", "w", [⟨"file:///a", "/a"⟩]⟩))
        (some ⟨"w", "w", [⟨"file:///a", "/a"⟩, ⟨"file:///b", "/b"⟩]⟩)).2.added.map folderKey) :=
  ⟨by decide, by decide, by decide, by decide,
    (accept_delta_characterization
      ⟨"w", "w", [⟨"file:///a", "/a"⟩]⟩
      ⟨"w", "w", [⟨"file:///a", "/a"⟩, ⟨"file:///b", "/b"⟩]⟩
      ⟨"w", "w", [⟨"file:///a", "/a"⟩]⟩
      ⟨"w", "w", [⟨"file:///b", "/b"⟩, ⟨"file:///a", "/a"⟩]⟩
      (by decide) (by decide) (by decide) (by decide)).1 ⟨"b", ⟨"file:///b", "/b"⟩, 1⟩,
    (accept_delta_characterization
      ⟨"w", "w", [⟨"file:///a", "/a"⟩]⟩
      ⟨"w", "w", [⟨"file:///a", "/a"⟩, ⟨"file:///b", "/b"⟩]⟩
      ⟨"w", "w", [⟨"file:///a", "/a"⟩]⟩
      ⟨"w", "w", [⟨"file:///b", "/b"⟩, ⟨"file:///a", "/a"⟩]⟩
      (by decide) (by decide) (by decide) (by decide)).2.2.1⟩

/-- C5 amended: while the process-wide request-id pool is still at its
starting value 0 (no prior `findFiles` call on any instance), a
`findFiles` call allocates request id 0 and, when a cancellation token
is supplied, firing it sends a cancel-search message carrying 0. -/
theorem findFiles_first_in_process (inc exc : String) (mx : Option Nat) :
    (findFiles 0 inc exc mx true).requestId = 0 ∧
    (findFiles 0 inc exc mx true).startMsg = .startSearch inc exc mx 0 ∧
    (findFiles 0 inc exc mx true).cancelMsg = some (.cancelSearch 0) := by
  exact ⟨rfl, rfl, rfl⟩

/-- Construction invariant: a snapshot freshly built by
`Workspace2.ofData` has as many folders as roots, and at every position
the folder carries the root at that position as its URI and the
position itself as its index.  The in-place sort inside the accept
handler is what later destroys this. -/
theorem ofData_invariant (d : IWorkspaceData) (i : Nat) :
    (Workspace2.ofData d).folders.length = (Workspace2.ofData d).roots.length ∧
    ((Workspace2.ofData d).folders[i]?.map fun f => f.uri) = (Workspace2.ofData d).roots[i]? ∧
    ((Workspace2.ofData d).folders[i]?.map fun f => f.index) =
      ((Workspace2.ofData d).roots[i]?.map fun _ => i) := by
  refine ⟨by simp [Workspace2.ofData], ?_, ?_⟩ <;>
    (simp only [Workspace2.ofData, List.getElem?_map, List.getElem?_enum, Option.map_map]
     cases d.roots[i]? <;> rfl)

end VSW
